import Mathlib

/-!
Verification of the ingestion / normalization pipeline of `src/codigo.py`
(a Streamlit dashboard over Brazilian workplace-accident CSV files).

The Python source is shallowly embedded: pure helpers become Lean
functions on `String` / `List Char`, pandas tables become lists of rows,
file contents become strings, and the pandas / csv library calls that the
code under scrutiny merely wraps (`pd.read_csv`, `csv.Sniffer`) are
abstracted as function parameters.  Machine text is modelled at the level
of Unicode code points (`Char`).
-/

namespace Codigo

/-- Membership in the regex character class `[0-9a-z]` used by
`normalize_name` (`re.sub(r'[^0-9a-z]+', '_', ...)`): ASCII lowercase
letters (97–122) and digits (48–57). -/
def isAlnumLower (c : Char) : Bool :=
  (97 ≤ c.toNat && c.toNat ≤ 122) || (48 ≤ c.toNat && c.toNat ≤ 57)

/-- Membership in the regex character class `[A-Za-z]` used by
`derive_sigla_from_name` (`re.fullmatch(r'[A-Za-z]{2}', s)`). -/
def isAsciiAlpha (c : Char) : Bool :=
  (65 ≤ c.toNat && c.toNat ≤ 90) || (97 ≤ c.toNat && c.toNat ≤ 122)

/-- Python `str.lower` on one character, for the ASCII range (the inputs
these claims evaluate stay in the Latin repertoire after accent
stripping). -/
def pyLowerChar (c : Char) : Char :=
  if 65 ≤ c.toNat && c.toNat ≤ 90 then Char.ofNat (c.toNat + 32) else c

/-- Python `str.upper` on one character, for the ASCII range. -/
def pyUpperChar (c : Char) : Char :=
  if 97 ≤ c.toNat && c.toNat ≤ 122 then Char.ofNat (c.toNat - 32) else c

/-- Python `str.lower`. -/
def pyLower (s : String) : String := String.mk (s.data.map pyLowerChar)

/-- Python `str.upper`. -/
def pyUpper (s : String) : String := String.mk (s.data.map pyUpperChar)

/-- Python `str.strip()` on a character list (shared worker of `pyStrip`
and the sidecar-file line parser). -/
def pyStripL (l : List Char) : List Char :=
  (l.dropWhile Char.isWhitespace).rdropWhile Char.isWhitespace

/-- Python `str.strip()` (no argument): remove leading and trailing
whitespace. -/
def pyStrip (s : String) : String := String.mk (pyStripL s.data)

/-- Decomposition table behind `_strip_accents` in the source, which is
`unicodedata.normalize('NFKD', s)` followed by dropping combining marks.
For every precomposed Latin letter relevant to this data set, NFKD yields
the base letter followed by a combining mark, so dropping the marks maps
the character to its base letter; unaccented characters are fixed. -/
def ACCENT_TABLE : List (Char × Char) :=
  [('á','a'), ('à','a'), ('â','a'), ('ã','a'), ('ä','a'), ('å','a'),
   ('é','e'), ('è','e'), ('ê','e'), ('ë','e'),
   ('í','i'), ('ì','i'), ('î','i'), ('ï','i'),
   ('ó','o'), ('ò','o'), ('ô','o'), ('õ','o'), ('ö','o'),
   ('ú','u'), ('ù','u'), ('û','u'), ('ü','u'),
   ('ç','c'), ('ñ','n'), ('ý','y'),
   ('Á','A'), ('À','A'), ('Â','A'), ('Ã','A'), ('Ä','A'), ('Å','A'),
   ('É','E'), ('È','E'), ('Ê','E'), ('Ë','E'),
   ('Í','I'), ('Ì','I'), ('Î','I'), ('Ï','I'),
   ('Ó','O'), ('Ò','O'), ('Ô','O'), ('Õ','O'), ('Ö','O'),
   ('Ú','U'), ('Ù','U'), ('Û','U'), ('Ü','U'),
   ('Ç','C'), ('Ñ','N')]

/-- Accent stripping for one character, via `ACCENT_TABLE`. -/
def stripAccentChar (c : Char) : Char :=
  ((ACCENT_TABLE.find? (fun kv => kv.1 == c)).map (fun kv => kv.2)).getD c

/-- Embedding of `_strip_accents` (`src/codigo.py:16`). -/
def _strip_accents (s : String) : String :=
  String.mk (s.data.map stripAccentChar)

/-- Worker for `squash`: the flag records whether the scan currently sits
inside a run of characters outside `[0-9a-z]` whose replacement underscore
has already been emitted. -/
def squashAux : Bool → List Char → List Char
  | _, [] => []
  | inRun, c :: cs =>
    if isAlnumLower c then c :: squashAux false cs
    else if inRun then squashAux true cs
    else '_' :: squashAux true cs

/-- Replacement of every maximal run of characters outside `[0-9a-z]` by a
single underscore: the effect of `re.sub(r'[^0-9a-z]+', '_', c0)` in
`normalize_name` (`src/codigo.py:23`). -/
def squash (l : List Char) : List Char := squashAux false l

/-- Worker for `collapseU`: the flag records whether the scan currently
sits inside a run of underscores whose first underscore has already been
emitted. -/
def collapseAux : Bool → List Char → List Char
  | _, [] => []
  | inRun, c :: cs =>
    if c == '_' then
      if inRun then collapseAux true cs else c :: collapseAux true cs
    else c :: collapseAux false cs

/-- Collapsing of every run of underscores to a single underscore: the
effect of `re.sub(r'_+', '_', c0)` in `normalize_name`
(`src/codigo.py:24`). -/
def collapseU (l : List Char) : List Char := collapseAux false l

/-- Python `str.strip(t)` for a single strip character `t`. -/
def stripEnds (t : Char) (l : List Char) : List Char :=
  (l.dropWhile (fun c => c == t)).rdropWhile (fun c => c == t)

/-- Embedding of `normalize_name` (`src/codigo.py:21`): strip outer
whitespace, strip accents, lowercase, squash `[^0-9a-z]+` runs to `_`,
collapse `_+` runs, strip outer underscores. -/
def normalize_name (c : String) : String :=
  String.mk (stripEnds '_' (collapseU (squash (pyLower (_strip_accents (pyStrip c))).data)))

/-- Prefix test on character lists. -/
def isPrefixOfChars : List Char → List Char → Bool
  | [], _ => true
  | _ :: _, [] => false
  | a :: as, b :: bs => a == b && isPrefixOfChars as bs

/-- Worker for `strContains`. -/
def strContainsAux (pat : List Char) : List Char → Bool
  | [] => pat.isEmpty
  | c :: cs => isPrefixOfChars pat (c :: cs) || strContainsAux pat cs

/-- Python substring test `pat in s`. -/
def strContains (s pat : String) : Bool := strContainsAux pat.data s.data

/-- Python `str.split(sep)` for a one-character separator: split at every
occurrence, keeping empty pieces (`"".split(t) == ['']`). -/
def splitOnChar (sep : Char) : List Char → List (List Char)
  | [] => [[]]
  | c :: cs =>
    if c == sep then [] :: splitOnChar sep cs
    else
      match splitOnChar sep cs with
      | [] => [[c]]
      | x :: xs => (c :: x) :: xs

/-- Python `int(...)` on a nonempty all-digit string, `none` otherwise. -/
def toNatDigits (l : List Char) : Option Nat :=
  if l.isEmpty then none
  else
    l.foldl
      (fun acc c =>
        match acc with
        | some n => if 48 ≤ c.toNat && c.toNat ≤ 57 then some (n * 10 + (c.toNat - 48)) else none
        | none => none)
      (some 0)

/-- Python `dict` assignment `d[k] = v`: update the value in place if the
key is present (keeping its position), else append the pair. -/
def dictInsert (k v : String) : List (String × String) → List (String × String)
  | [] => [(k, v)]
  | kv :: rest => if kv.1 == k then (k, v) :: rest else kv :: dictInsert k v rest

/-- Python `k in d`. -/
def dictContains (d : List (String × String)) (k : String) : Bool :=
  d.any (fun kv => kv.1 == k)

/-- Python `d.get(k)` / `d[k]`. -/
def dictGet (d : List (String × String)) (k : String) : Option String :=
  match d with
  | [] => none
  | kv :: rest => if kv.1 == k then some kv.2 else dictGet rest k

/-- Python dict construction from a pair sequence (later duplicate keys
overwrite in place). -/
def buildDict (pairs : List (String × String)) : List (String × String) :=
  pairs.foldl (fun acc kv => dictInsert kv.1 kv.2 acc) []

/-- Embedding of `UF_SIGLAS` (`src/codigo.py:3220`): normalized state
name to 2-letter code. -/
def UF_SIGLAS : List (String × String) :=
  [("acre","AC"), ("alagoas","AL"), ("amapa","AP"), ("amazonas","AM"), ("bahia","BA"),
   ("ceara","CE"), ("distrito federal","DF"), ("espirito santo","ES"), ("goias","GO"),
   ("maranhao","MA"), ("mato grosso","MT"), ("mato grosso do sul","MS"),
   ("minas gerais","MG"), ("para","PA"), ("paraiba","PB"), ("parana","PR"),
   ("pernambuco","PE"), ("piaui","PI"), ("rio de janeiro","RJ"),
   ("rio grande do norte","RN"), ("rio grande do sul","RS"),
   ("rondonia","RO"), ("roraima","RR"), ("santa catarina","SC"),
   ("sao paulo","SP"), ("sergipe","SE"), ("tocantins","TO")]

/-- Embedding of `UF_REGIAO` (`src/codigo.py:3230`): 2-letter code to
macro-region. -/
def UF_REGIAO : List (String × String) :=
  [("AC","Norte"), ("AP","Norte"), ("AM","Norte"), ("PA","Norte"), ("RO","Norte"),
   ("RR","Norte"), ("TO","Norte"),
   ("AL","Nordeste"), ("BA","Nordeste"), ("CE","Nordeste"), ("MA","Nordeste"),
   ("PB","Nordeste"), ("PE","Nordeste"), ("PI","Nordeste"), ("RN","Nordeste"),
   ("SE","Nordeste"),
   ("DF","Centro-Oeste"), ("GO","Centro-Oeste"), ("MT","Centro-Oeste"),
   ("MS","Centro-Oeste"),
   ("ES","Sudeste"), ("MG","Sudeste"), ("RJ","Sudeste"), ("SP","Sudeste"),
   ("PR","Sul"), ("RS","Sul"), ("SC","Sul")]

/-- Lookup in a static table (Python `dict.get`): first matching key. -/
def lookupTable (t : List (String × String)) (k : String) : Option String :=
  (t.find? (fun kv => kv.1 == k)).map (fun kv => kv.2)

/-- Replacement of every whitespace run by a single space: the effect of
`re.sub(r'\s+', ' ', x)` in `normalize_uf_name` (`src/codigo.py:3239`). -/
def collapseWsAux : Bool → List Char → List Char
  | _, [] => []
  | inRun, c :: cs =>
    if c.isWhitespace then
      if inRun then collapseWsAux true cs else ' ' :: collapseWsAux true cs
    else c :: collapseWsAux false cs

/-- Embedding of `normalize_uf_name` (`src/codigo.py:3237`): strip
accents, strip outer whitespace, lowercase, collapse inner whitespace. -/
def normalize_uf_name (x : String) : String :=
  String.mk (collapseWsAux false (pyLower (pyStrip (_strip_accents x))).data)

/-- Embedding of `derive_sigla_from_name` (`src/codigo.py:3241`).  The
`Option` input models the Python `None`/`NaN` guard; the two-letter
short-circuit models `re.fullmatch(r'[A-Za-z]{2}', s)`. -/
def derive_sigla_from_name (x : Option String) : Option String :=
  match x with
  | none => none
  | some x0 =>
    let s := pyStrip x0
    if s.data.length == 2 && s.data.all isAsciiAlpha then some (pyUpper s)
    else lookupTable UF_SIGLAS (normalize_uf_name s)

/-- Embedding of `derive_regiao_from_sigla` (`src/codigo.py:3249`); the
Python falsiness test `if not sigla` also catches the empty string. -/
def derive_regiao_from_sigla (sigla : Option String) : Option String :=
  match sigla with
  | none => none
  | some s => if s == "" then none else lookupTable UF_REGIAO (pyUpper s)

/-- Per-cell derivation of the module-level `uf_sigla` column
(`src/codigo.py:3369`): `df_renamed["uf"].apply(derive_sigla_from_name)`.
No fallback to the raw value is applied there. -/
def uf_sigla_column (col : List String) : List (Option String) :=
  col.map (fun s => derive_sigla_from_name (some s))

/-- Per-cell derivation of the module-level `regiao` column
(`src/codigo.py:3371`): `df_renamed["uf_sigla"].apply(derive_regiao_from_sigla)`. -/
def regiao_column (col : List (Option String)) : List (Option String) :=
  col.map derive_regiao_from_sigla

/-- Python `str.title()` for the ASCII range: uppercase every letter that
follows a non-letter, lowercase the other letters. -/
def pyTitleAux : Bool → List Char → List Char
  | _, [] => []
  | prevAlpha, c :: cs =>
    if isAsciiAlpha c then
      (if prevAlpha then pyLowerChar c else pyUpperChar c) :: pyTitleAux true cs
    else c :: pyTitleAux false cs

/-- Python `str.title()`. -/
def pyTitle (s : String) : String := String.mk (pyTitleAux false s.data)

/-- Embedding of `UF_MAPPING` (`src/codigo.py:177`), as the literal pair
sequence of the Python dict (duplicate keys collapse via `buildDict`). -/
def UF_MAPPING_PAIRS : List (String × String) :=
  [("Rio de Janeiro","RJ"), ("Mato Grosso","MT"), ("Santa Catarina","SC"), ("São Paulo","SP"),
   ("Distrito Federal","DF"), ("Zerado","Zerado"), ("Pernambuco","PE"), ("Mato Grosso do Sul","MS"),
   ("Amazonas","AM"), ("Paraná","PR"), ("Parana","PR"), ("PARANÁ","PR"), ("PARANA","PR"),
   ("Ceará","CE"), ("Ceara","CE"), ("Minas Gerais","MG"),
   ("Rio Grande do Sul","RS"), ("Bahia","BA"), ("Alagoas","AL"), ("Pará","PA"), ("Para","PA"),
   ("Espírito Santo","ES"), ("Espirito Santo","ES"), ("Tocantins","TO"), ("Paraíba","PB"), ("Paraiba","PB"),
   ("Sergipe","SE"), ("Piauí","PI"), ("Piaui","PI"), ("Rio Grande do Norte","RN"), ("Maranhão","MA"),
   ("Maranhao","MA"), ("Goiás","GO"), ("Goias","GO"), ("Rondônia","RO"), ("Rondonia","RO"),
   ("Amapá","AP"), ("Amapa","AP"), ("Roraima","RR"), ("Acre","AC"),
   ("São Paulo","SP"), ("Sao Paulo","SP"), ("SANTA CATARINA","SC"), ("RIO DE JANEIRO","RJ"),
   ("RIO GRANDE DO SUL","RS"), ("MINAS GERAIS","MG"), ("BAHIA","BA"), ("CEARÁ","CE"), ("CEARA","CE"),
   ("PARÁ","PA"), ("PARA","PA"), ("ESPÍRITO SANTO","ES"), ("ESPIRITO SANTO","ES"), ("GOIÁS","GO"),
   ("GOIAS","GO"), ("MARANHÃO","MA"), ("MARANHAO","MA"), ("PIAUÍ","PI"), ("PIAUI","PI"),
   ("PARAÍBA","PB"), ("PARAIBA","PB"), ("RONDÔNIA","RO"), ("RONDONIA","RO"), ("AMAPÁ","AP"),
   ("AMAPA","AP"), ("ACRE","AC"), ("ALAGOAS","AL"), ("SERGIPE","SE"), ("TOCANTINS","TO"),
   ("RIO GRANDE DO NORTE","RN"), ("MATO GROSSO","MT"), ("MATO GROSSO DO SUL","MS"),
   ("DISTRITO FEDERAL","DF"), ("PERNAMBUCO","PE")]

/-- The `UF_MAPPING` dict. -/
def UF_MAPPING : List (String × String) := buildDict UF_MAPPING_PAIRS

/-- Per-cell computation of `uf_empregador_sigla` in
`apply_uf_and_municipio_mapping` (`src/codigo.py:3132-3152`): normalize
(`_strip_accents(x).strip().title()`), map through `UF_MAPPING`, and
`fillna` with the original raw value. -/
def uf_empregador_sigla_cell (x : String) : String :=
  (lookupTable UF_MAPPING (pyTitle (pyStrip (_strip_accents x)))).getD x

/-- Embedding of the `patterns` dict of `detect_and_map_columns`
(`src/codigo.py:3086`). -/
def PATTERNS : List (String × List String) :=
  [("data", ["data_acidente", "data", "dt_acidente", "dataacidente", "data_acidente_1", "datadoacidente"]),
   ("uf", ["uf_munic_acidente", "uf", "uf_municipio", "uf_acidente", "uf_munic_empregador", "ufmunicempregador"]),
   ("setor", ["cnae2_0_empregador_1", "setor", "cnae_descricao", "atividade", "empregador", "cnae20empregador1"]),
   ("cnae_codigo", ["cnae2_0_empregador", "cnae", "cnae_codigo", "codigo_cnae", "cnae20empregador"]),
   ("lesao", ["natureza_da_lesao", "lesao", "natureza_lesao", "tipo_lesao", "naturezalesao"]),
   ("origem", ["agente_causador_acidente", "origem", "agente_causador", "causa", "agentecausadoracidente"]),
   ("tipo_acidente", ["tipo_do_acidente", "tipo_acidente", "acidente_tipo", "tipodoacidente"]),
   ("municipio", ["municipio", "munic", "municipio_acidente", "munic_empr", "municempr"]),
   ("munic_empr", ["munic_empr", "municipio_empregador", "municempregador", "munic_empregador"]),
   ("uf_munic_empregador", ["uf_munic_empregador", "ufempregador", "uf_municipio_empregador", "ufmunicempregador"])]

/-- Resolution of one semantic role in `detect_and_map_columns`
(`src/codigo.py:3104-3124`): first an exact match of a candidate pattern
against the keys of `normalized_cols`, else a scan of `normalized_cols`
in insertion order testing each candidate as a substring.  The source
iterates `normalized_cols.items()` naming the key `original_col` and the
value `normalized_col`, so the substring test runs against the dict VALUE
(`kv.2`) while the bound name is the dict KEY (`kv.1`); that swap is
reproduced here. -/
def resolveRole (normalized_cols : List (String × String)) (pats : List String) : Option String :=
  match pats.find? (fun p => dictContains normalized_cols p) with
  | some p => dictGet normalized_cols p
  | none =>
    (normalized_cols.find? (fun kv => pats.any (fun pat => strContains kv.2 pat))).map
      (fun kv => kv.1)

/-- Embedding of `detect_and_map_columns` (`src/codigo.py:3077`), acting
on the header list of the (already header-normalized) table. -/
def detect_and_map_columns (headers : List String) : List (String × String) :=
  let normalized_cols := buildDict (headers.map (fun h => (normalize_name h, h)))
  PATTERNS.foldl
    (fun acc rp =>
      match resolveRole normalized_cols rp.2 with
      | some v => dictInsert rp.1 v acc
      | none => acc)
    []

/-- Delimiter candidate list of `load_csv_simple` (`src/codigo.py:62-76`):
the explicit separator if any, then the sniffed one if new, then the
common fallbacks `;`, `,`, tab, `|` if new, then a first-seen
de-duplication (`dict.fromkeys`). -/
def buildSeps (sep_opt : Option String) (sniffed : Option String) : List String :=
  let seps0 : List String := match sep_opt with | some s => [s] | none => []
  let seps1 : List String :=
    match sniffed with
    | some a => if seps0.contains a then seps0 else seps0 ++ [a]
    | none => seps0
  let seps2 := [";", ",", "\t", "|"].foldl
    (fun acc s => if acc.contains s then acc else acc ++ [s]) seps1
  seps2.foldl (fun acc s => if acc.contains s then acc else acc ++ [s]) []

/-- The encoding-major, delimiter-minor search order of
`load_csv_simple`. -/
def csvPairs (encodings seps : List String) : List (String × String) :=
  encodings.flatMap (fun enc => seps.map (fun sep => (enc, sep)))

/-- The try-parse loop of `load_csv_simple` (`src/codigo.py:78-93`):
`attempt` abstracts `pd.read_csv` for one (encoding, delimiter) pair,
`ncols` abstracts `df.shape[1]`; the accumulator carries `last_err`.  A
parse that succeeds with zero columns is skipped without updating
`last_err`, exactly as in the source. -/
def tryPairs {E T : Type} (attempt : String → String → Except E T) (ncols : T → Nat) :
    List (String × String) → Option E → Except (Option E) (T × String × String)
  | [], last => .error last
  | p :: rest, last =>
    match attempt p.1 p.2 with
    | .ok t => if 1 ≤ ncols t then .ok (t, p.1, p.2) else tryPairs attempt ncols rest last
    | .error e => tryPairs attempt ncols rest (some e)

/-- Embedding of `load_csv_simple` (`src/codigo.py:57-93`): the
`.error` payload is the `last_err` carried by the final `RuntimeError`. -/
def load_csv_simple {E T : Type} (attempt : String → String → Except E T) (ncols : T → Nat)
    (sep_opt sniffed : Option String) (encodings : List String) :
    Except (Option E) (T × String × String) :=
  tryPairs attempt ncols (csvPairs encodings (buildSeps sep_opt sniffed)) none

/-- Whether one (encoding, delimiter) pair is accepted by the loader. -/
def pairOK {E T : Type} (attempt : String → String → Except E T) (ncols : T → Nat)
    (p : String × String) : Bool :=
  match attempt p.1 p.2 with
  | .ok t => 1 ≤ ncols t
  | .error _ => false

/-- The parse exceptions raised across a list of attempts, in order. -/
def errorsOf {E T : Type} (attempt : String → String → Except E T)
    (pairs : List (String × String)) : List E :=
  pairs.filterMap (fun p =>
    match attempt p.1 p.2 with
    | .ok _ => none
    | .error e => some e)

/-- The value of `last_err` after scanning `pairs`, starting from an
incoming value `last`. -/
def lastErrFrom {E T : Type} (attempt : String → String → Except E T)
    (last : Option E) (pairs : List (String × String)) : Option E :=
  match (errorsOf attempt pairs).getLast? with
  | some e => some e
  | none => last

/-- The last parse exception raised across a list of attempts, in order
(`last_err` after a full failed scan). -/
def lastErr {E T : Type} (attempt : String → String → Except E T)
    (pairs : List (String × String)) : Option E :=
  lastErrFrom attempt none pairs

/-- Failure modes of `load_all_csvs_from_folder`: `noFilesFound` embeds
the `FileNotFoundError` for an empty `*.csv` glob, `noFilesLoaded` the
`RuntimeError` for zero successfully loaded files. -/
inductive AggErr where
  | noFilesFound : AggErr
  | noFilesLoaded : AggErr
deriving DecidableEq, Repr

/-- The `all_dfs` list of `load_all_csvs_from_folder`: the successfully
loaded files' tables in discovery order, each row tagged with its origin
file name (`df_temp['arquivo_origem']`); failed files are skipped. -/
def aggTables {E R : Type} (files : List String)
    (loadOne : String → Except E (List R)) : List (List (R × String)) :=
  files.filterMap (fun f =>
    match loadOne f with
    | .ok rows => some (rows.map (fun r => (r, f)))
    | .error _ => none)

/-- Embedding of `load_all_csvs_from_folder` (`src/codigo.py:108-166`):
`files` is the glob result, `loadOne` abstracts the per-file
`load_csv_simple` call, and the successes are concatenated
(`pd.concat`) in discovery order. -/
def load_all_csvs_from_folder {E R : Type} (files : List String)
    (loadOne : String → Except E (List R)) : Except AggErr (List (R × String)) :=
  if files.isEmpty then .error .noFilesFound
  else if (aggTables files loadOne).isEmpty then .error .noFilesLoaded
  else .ok (aggTables files loadOne).flatten

/-- A two-encoding loader stub for evaluating the loader theorems on a
concrete instance: only (latin1, `;`) parses, with two columns. -/
def demoAttempt (enc sep : String) : Except String (List String) :=
  if enc == "latin1" && sep == ";" then .ok ["c1", "c2"] else .error (enc ++ sep)

/-- Column counter of the loader stub. -/
def demoNcols (t : List String) : Nat := t.length

/-- A two-file directory stub: one well-formed file, one broken file. -/
def demoLoadOne (f : String) : Except String (List String) :=
  if f == "a.csv" then .ok ["r1"] else .error "boom"

/-- One parsed sidecar/embedded-data line folded into the mapping dict:
split on tab, keep only two-field lines (`src/codigo.py:3047-3051` and
`src/codigo.py:3066-3069`). -/
def foldMappingLine (strip : Bool) (m : List (String × String)) (line : List Char) :
    List (String × String) :=
  match splitOnChar '\t' (if strip then pyStripL line else line) with
  | [k, v] => dictInsert (String.mk k) (String.mk v) m
  | _ => m

/-- Embedding of the parsing part of `create_municipio_mapping_file`
(`src/codigo.py:3045-3051`): `mapping_data.strip().split('\n')`, then
`line.split('\t')` (no per-line strip), keeping two-field lines. -/
def create_municipio_mapping (data : String) : List (String × String) :=
  (splitOnChar '\n' (pyStrip data).data).foldl (foldMappingLine false) []

/-- Embedding of the file body written by `create_municipio_mapping_file`
(`src/codigo.py:3054-3056`): one `key\tvalue\n` line per entry, in dict
order. -/
def serialize_mapping (m : List (String × String)) : String :=
  String.mk (m.flatMap (fun kv => kv.1.data ++ '\t' :: kv.2.data ++ ['\n']))

/-- Embedding of `load_municipio_mapping` (`src/codigo.py:3060-3069`)
applied to a file body: iterate lines, `line.strip().split('\t')`, keep
two-field lines. -/
def load_municipio_mapping (file : String) : List (String × String) :=
  (splitOnChar '\n' file.data).foldl (foldMappingLine true) []

/-- Per-cell municipality enrichment of `apply_uf_and_municipio_mapping`
(`src/codigo.py:3170-3178`): map through the mapping and `fillna` with
the original raw token. -/
def municipio_cell (m : List (String × String)) (x : String) : String :=
  (dictGet m x).getD x

/-- Well-formedness of one mapping entry for the sidecar round trip: no
tab or newline inside key or value, the key does not start with
whitespace, the value does not end with whitespace (both nonempty). -/
def entryOK (kv : String × String) : Bool :=
  kv.1.data.all (fun c => !(c == '\t') && !(c == '\n')) &&
  kv.2.data.all (fun c => !(c == '\t') && !(c == '\n')) &&
  (match kv.1.data.head? with | some c => !c.isWhitespace | none => false) &&
  (match kv.2.data.getLast? with | some c => !c.isWhitespace | none => false)

/-- One row of the enriched table, restricted to the columns the global
filter block touches (`src/codigo.py:3401-3475`). -/
structure FRow where
  uf_sigla : String
  regiao : String
  mes : String
  ano : String
  tipo_acidente : String
  cnae_codigo : String
  setor : String
  arquivo_origem : String
deriving DecidableEq, Repr

/-- The widget state consumed by the global filter block; `"(todos)"` is
the sentinel of the month/year select boxes, the empty string the
sentinel of the free-text search. -/
structure Selections where
  uf_sel : List String
  reg_sel : List String
  mes_sel : String
  ano_sel : String
  tipo_sel : List String
  cnae_sel : List String
  setor_sel : List String
  arquivo_sel : List String
  termo : String
deriving DecidableEq, Repr

/-- The text-typed columns of an `FRow`, as scanned by the free-text
filter. -/
def textCols (r : FRow) : List String :=
  [r.uf_sigla, r.regiao, r.mes, r.ano, r.tipo_acidente, r.cnae_codigo, r.setor,
   r.arquivo_origem]

/-- The free-text predicate (`src/codigo.py:3466-3473`): case-insensitive
substring test OR-ed over the text columns. -/
def rowMatchesTermo (termo : String) (r : FRow) : Bool :=
  (textCols r).any (fun c => strContains (pyLower c) (pyLower termo))

/-- One conditional filter stage of the global filter block: filter only
when the corresponding widget carries an active selection. -/
def guardFilter (b : Bool) (p : FRow → Bool) (t : List FRow) : List FRow :=
  if b then t.filter p else t

/-- Embedding of the global filter block (`src/codigo.py:3401-3475`):
each widget filter is applied in sequence, guarded by "a selection was
made" (`if sel:` for the multiselects, the `"(todos)"` sentinel for the
month/year boxes, nonemptiness for the free-text term). -/
def applyFilters (sel : Selections) (t : List FRow) : List FRow :=
  guardFilter (!sel.termo.isEmpty) (fun r => rowMatchesTermo sel.termo r)
    (guardFilter (!sel.arquivo_sel.isEmpty) (fun r => sel.arquivo_sel.contains r.arquivo_origem)
      (guardFilter (!sel.setor_sel.isEmpty) (fun r => sel.setor_sel.contains r.setor)
        (guardFilter (!sel.cnae_sel.isEmpty) (fun r => sel.cnae_sel.contains r.cnae_codigo)
          (guardFilter (!sel.tipo_sel.isEmpty) (fun r => sel.tipo_sel.contains r.tipo_acidente)
            (guardFilter (!(sel.ano_sel == "(todos)")) (fun r => r.ano == sel.ano_sel)
              (guardFilter (!(sel.mes_sel == "(todos)")) (fun r => r.mes == sel.mes_sel)
                (guardFilter (!sel.reg_sel.isEmpty) (fun r => sel.reg_sel.contains r.regiao)
                  (guardFilter (!sel.uf_sel.isEmpty) (fun r => sel.uf_sel.contains r.uf_sigla)
                    t))))))))

/-- A row satisfies every ACTIVE predicate of a selection (an inactive
widget — empty set, sentinel month/year, empty search — constrains
nothing). -/
def RowSat (sel : Selections) (r : FRow) : Prop :=
  (sel.uf_sel.isEmpty = false → sel.uf_sel.contains r.uf_sigla = true) ∧
  (sel.reg_sel.isEmpty = false → sel.reg_sel.contains r.regiao = true) ∧
  ((sel.mes_sel == "(todos)") = false → (r.mes == sel.mes_sel) = true) ∧
  ((sel.ano_sel == "(todos)") = false → (r.ano == sel.ano_sel) = true) ∧
  (sel.tipo_sel.isEmpty = false → sel.tipo_sel.contains r.tipo_acidente = true) ∧
  (sel.cnae_sel.isEmpty = false → sel.cnae_sel.contains r.cnae_codigo = true) ∧
  (sel.setor_sel.isEmpty = false → sel.setor_sel.contains r.setor = true) ∧
  (sel.arquivo_sel.isEmpty = false → sel.arquivo_sel.contains r.arquivo_origem = true) ∧
  (sel.termo.isEmpty = false → rowMatchesTermo sel.termo r = true)

/-- The all-inactive selection: no set chosen, sentinel month/year, empty
search term. -/
def noSelections : Selections :=
  ⟨[], [], "(todos)", "(todos)", [], [], [], [], ""⟩

/-- A pandas cell of an object-dtype column: either a missing value
(`NaN`/`None`/`NaT`) or a string. -/
inductive Cell where
  | null : Cell
  | str (s : String) : Cell
deriving DecidableEq, Repr

/-- Python `str(...)` as applied by pandas `astype(str)` to an
object-dtype cell: a missing value renders as the literal string
`"nan"`. -/
def pdAstypeStrCell : Cell → String
  | .null => "nan"
  | .str s => s

/-- The per-cell effect of the enrichment cleanup
`df_renamed[c].astype(str).str.strip()` (`src/codigo.py:3359-3360`). -/
def clean_text_cell (c : Cell) : String := pyStrip (pdAstypeStrCell c)

/-- A dataframe column with its dtype flag (`select_dtypes(['object'])`
selects the columns with `isObject = true`). -/
structure PColumn where
  name : String
  isObject : Bool
  cells : List Cell
deriving DecidableEq, Repr

/-- The enrichment cleanup loop (`src/codigo.py:3358-3360`): every
object-dtype column is rewritten through `astype(str).str.strip()`;
other columns are untouched. -/
def clean_spaces (cols : List PColumn) : List PColumn :=
  cols.map (fun c =>
    if c.isObject then
      PColumn.mk c.name c.isObject (c.cells.map (fun x => Cell.str (clean_text_cell x)))
    else c)

/-- A rectangular table of string cells: the parsed CSV as seen by the
module-level preparation block. -/
structure Table where
  headers : List String
  rows : List (List String)
deriving DecidableEq, Repr

/-- Embedding of `normalize_headers` (`src/codigo.py:27`). -/
def normalize_headers (t : Table) : Table :=
  Table.mk (t.headers.map normalize_name) t.rows

/-- pandas `df.columns.duplicated()`: true at every later occurrence of
an already-seen label. -/
def dupMaskAux (seen : List String) : List String → List Bool
  | [] => []
  | h :: rest => (seen.contains h) :: dupMaskAux (h :: seen) rest

/-- Drop the positions marked true in the mask. -/
def maskRow (mask : List Bool) (row : List String) : List String :=
  (row.zip mask).filterMap (fun p => if p.2 then none else some p.1)

/-- Embedding of `ensure_unique_columns` (`src/codigo.py:32`): keep only
the first occurrence of each header label. -/
def ensure_unique_columns (t : Table) : Table :=
  let mask := dupMaskAux [] t.headers
  Table.mk (maskRow mask t.headers) (t.rows.map (maskRow mask))

/-- Column extraction `df[name]`; `none` models a missing column
(the `if name in df` guards of the source). -/
def getCol (t : Table) (name : String) : Option (List String) :=
  (t.headers.findIdx? (fun h => h == name)).map
    (fun i => t.rows.map (fun r => r.getD i ""))

/-- Column assignment `df[name] = vals`: overwrite in place if the column
exists, else append it on the right. -/
def setCol (t : Table) (name : String) (vals : List String) : Table :=
  match t.headers.findIdx? (fun h => h == name) with
  | some i => Table.mk t.headers ((t.rows.zip vals).map (fun p => p.1.set i p.2))
  | none => Table.mk (t.headers ++ [name]) ((t.rows.zip vals).map (fun p => p.1 ++ [p.2]))

/-- The rename loop (`src/codigo.py:3355-3357`): for every detected role,
copy the ORIGINAL table's source column into a column named after the
role (`df_renamed[std_name] = df[orig_name]`).  A mapping value naming a
missing column cannot occur for mappings produced by
`detect_and_map_columns`. -/
def applyMapping (t : Table) (mapping : List (String × String)) : Table :=
  mapping.foldl
    (fun acc kv =>
      match getCol t kv.2 with
      | some vals => setCol acc kv.1 vals
      | none => acc)
    t

/-- The whitespace cleanup (`src/codigo.py:3358-3360`) on an all-string
table: every cell is already `str`, so `astype(str).str.strip()` strips
each cell. -/
def strip_cells (t : Table) : Table :=
  Table.mk t.headers (t.rows.map (fun r => r.map pyStrip))

/-- Modelled from pandas `to_datetime(dayfirst=True, errors="coerce")`
restricted to the day-first `dd/mm/yyyy` shape of this data: year and
month of the parsed date, `none` for unparseable cells (`NaT`). -/
def parseDateBR (s : String) : Option (Nat × Nat) :=
  match (splitOnChar '/' s.data).map toNatDigits with
  | [some d, some m, some y] =>
    if 1 ≤ d && d ≤ 31 && 1 ≤ m && m ≤ 12 then some (y, m) else none
  | _ => none

/-- `dt.to_period("M").astype(str)` rendering `YYYY-MM` (pandas renders
`NaT` as the string `"NaT"`). -/
def fmtMes (ym : Nat × Nat) : String :=
  toString ym.1 ++ "-" ++ (if ym.2 < 10 then "0" else "") ++ toString ym.2

/-- The derived `mes` column (`src/codigo.py:3366`). -/
def mes_column (col : List String) : List String :=
  col.map (fun s =>
    match parseDateBR s with
    | some ym => fmtMes ym
    | none => "NaT")

/-- The derived `ano` column (`src/codigo.py:3365`), `none` for `NaT`. -/
def ano_column (col : List String) : List (Option Nat) :=
  col.map (fun s => (parseDateBR s).map (fun ym => ym.1))

/-- The module-level preparation chain (`src/codigo.py:3330-3360`):
normalize headers, drop duplicate columns, detect roles, copy role
columns, strip cell whitespace. -/
def prepare (t : Table) : Table :=
  let t1 := ensure_unique_columns (normalize_headers t)
  strip_cells (applyMapping t1 (detect_and_map_columns t1.headers))

/-- The `mes` column of the prepared table (`none` when no `data` column
was detected, matching the `if "data" in df_renamed` guard). -/
def pipeline_mes (t : Table) : Option (List String) :=
  (getCol (prepare t) "data").map mes_column

/-- The `uf_sigla` column of the prepared table
(`src/codigo.py:3369-3370`). -/
def pipeline_uf_sigla (t : Table) : Option (List (Option String)) :=
  (getCol (prepare t) "uf").map uf_sigla_column

/-- The `regiao` column of the prepared table (`src/codigo.py:3371`). -/
def pipeline_regiao (t : Table) : Option (List (Option String)) :=
  (pipeline_uf_sigla t).map regiao_column

/-- A parsed delimited text: first line headers, remaining lines rows
(the shape `pd.read_csv` produces for the clean two-row fixture). -/
def parseFixture (s : String) (sep : Char) : Table :=
  match splitOnChar '\n' s.data with
  | [] => Table.mk [] []
  | h :: rest =>
    Table.mk ((splitOnChar sep h).map String.mk)
      (rest.map (fun line => (splitOnChar sep line).map String.mk))

/-- The end-to-end fixture of the spec (§8). -/
def FIXTURE : String := "Data;UF;Setor\n01/01/2024;Paraná;Comércio\n02/02/2024;XX;Indústria"

/-- The fixture parsed with the `;` delimiter accepted by the loader. -/
def fixtureTable : Table := parseFixture FIXTURE ';'

/-- Well-formed alternation produced by `squash`: every character is in
`[0-9a-z]` or is an underscore, and every underscore is followed by an
alphanumeric character or ends the list. -/
inductive Sep : List Char → Prop where
  | nil : Sep []
  | alnum {c : Char} {cs : List Char} :
      isAlnumLower c = true → Sep cs → Sep (c :: cs)
  | uLast : Sep ['_']
  | uCons {c : Char} {cs : List Char} :
      isAlnumLower c = true → Sep (c :: cs) → Sep ('_' :: c :: cs)

lemma alnum_ne_under {c : Char} (h : isAlnumLower c = true) : (c == '_') = false := by
  by_cases hc : c = '_'
  · subst hc; simp [isAlnumLower] at h
  · simp [hc]

lemma sep_mem {l : List Char} (hl : Sep l) {c : Char} (hc : c ∈ l) :
    isAlnumLower c = true ∨ c = '_' := by
  induction hl with
  | nil => cases hc
  | alnum h _ ih =>
    rcases List.mem_cons.mp hc with rfl | hm
    · exact Or.inl h
    · exact ih hm
  | uLast => rcases List.mem_cons.mp hc with rfl | hm
             · exact Or.inr rfl
             · cases hm
  | uCons h _ ih =>
    rcases List.mem_cons.mp hc with rfl | hm
    · exact Or.inr rfl
    · exact ih hm

lemma dropWhile_head_false {p : Char → Bool} :
    ∀ {l : List Char} {d : Char} {ds : List Char},
      l.dropWhile p = d :: ds → p d = false := by
  intro l
  induction l with
  | nil => intro d ds h; simp [List.dropWhile] at h
  | cons a as ih =>
    intro d ds h
    by_cases hp : p a
    · rw [List.dropWhile_cons_of_pos hp] at h
      exact ih h
    · rw [List.dropWhile_cons_of_neg hp] at h
      cases h
      simpa using hp

lemma dropWhile_all_false {p : Char → Bool} {l : List Char}
    (h : ∀ c ∈ l, p c = false) : l.dropWhile p = l := by
  cases l with
  | nil => rfl
  | cons a as => exact List.dropWhile_cons_of_neg (by simp [h a (by simp)])

lemma rdropWhile_all_false {p : Char → Bool} {l : List Char}
    (h : ∀ c ∈ l, p c = false) : l.rdropWhile p = l := by
  unfold List.rdropWhile
  rw [dropWhile_all_false (fun c hc => h c (List.mem_reverse.mp hc)), List.reverse_reverse]

lemma squashAux_true (l : List Char) :
    squashAux true l = squash (l.dropWhile (fun d => !isAlnumLower d)) := by
  induction l with
  | nil => rfl
  | cons c cs ih =>
    by_cases h : isAlnumLower c
    · rw [List.dropWhile_cons_of_neg (by simp [h])]
      simp [squashAux, squash, h]
    · rw [List.dropWhile_cons_of_pos (by simp [h])]
      simpa [squashAux, h] using ih

lemma squash_cons_pos {c : Char} {cs : List Char} (h : isAlnumLower c = true) :
    squash (c :: cs) = c :: squash cs := by
  simp [squash, squashAux, h]

lemma squash_cons_neg {c : Char} {cs : List Char} (h : isAlnumLower c = false) :
    squash (c :: cs) = '_' :: squash (cs.dropWhile (fun d => !isAlnumLower d)) := by
  simp [squash, squashAux, h, squashAux_true]

lemma squash_sep_aux (n : Nat) : ∀ l : List Char, l.length ≤ n → Sep (squash l) := by
  induction n with
  | zero =>
    intro l hl
    rw [List.eq_nil_of_length_eq_zero (Nat.le_zero.mp hl)]
    exact Sep.nil
  | succ n ih =>
    intro l hl
    cases l with
    | nil => exact Sep.nil
    | cons c cs =>
      simp only [List.length_cons] at hl
      by_cases h : isAlnumLower c
      · rw [squash_cons_pos h]
        exact Sep.alnum h (ih cs (by omega))
      · rw [squash_cons_neg (by simpa using h)]
        have hlen := (List.dropWhile_sublist (l := cs) (fun d => !isAlnumLower d)).length_le
        rcases hd : cs.dropWhile (fun d => !isAlnumLower d) with _ | ⟨d, ds⟩
        · simpa [squash, squashAux] using Sep.uLast
        · have hda : isAlnumLower d = true := by
            have := dropWhile_head_false hd
            simpa using this
          have hsep : Sep (squash (d :: ds)) := by
            apply ih
            rw [← hd] at *
            omega
          rw [squash_cons_pos hda] at hsep
          rw [squash_cons_pos hda]
          exact Sep.uCons hda hsep

lemma squash_sep (l : List Char) : Sep (squash l) :=
  squash_sep_aux l.length l le_rfl

lemma squash_id {l : List Char} (hl : Sep l) : squash l = l := by
  induction hl with
  | nil => rfl
  | alnum h _ ih => rw [squash_cons_pos h, ih]
  | uLast => rfl
  | uCons h hs ih =>
    rw [squash_cons_neg (by decide)]
    rw [List.dropWhile_cons_of_neg (by simp [h])]
    rw [ih]

lemma collapseAux_true (l : List Char) :
    collapseAux true l = collapseU (l.dropWhile (fun d => d == '_')) := by
  induction l with
  | nil => rfl
  | cons c cs ih =>
    by_cases h : c = '_'
    · subst h
      rw [List.dropWhile_cons_of_pos (by simp)]
      simpa [collapseAux] using ih
    · rw [List.dropWhile_cons_of_neg (by simp [h])]
      simp [collapseAux, collapseU, h]

lemma collapseU_id {l : List Char} (hl : Sep l) : collapseU l = l := by
  induction hl with
  | nil => rfl
  | alnum h _ ih =>
    simpa [collapseU, collapseAux, alnum_ne_under h] using ih
  | uLast => rfl
  | @uCons c cs h hs ih =>
    have e1 : collapseU ('_' :: c :: cs) = '_' :: collapseAux true (c :: cs) := by
      simp [collapseU, collapseAux]
    rw [e1, collapseAux_true,
      List.dropWhile_cons_of_neg (by simp [alnum_ne_under h]), ih]

lemma rdropWhile_cons (p : Char → Bool) (c : Char) (cs : List Char) :
    (c :: cs).rdropWhile p =
      if (cs.rdropWhile p).isEmpty then (if p c then [] else [c])
      else c :: cs.rdropWhile p := by
  have hrev : ∀ m : List Char, (m.reverse).isEmpty = m.isEmpty := by
    intro m; cases m <;> simp
  unfold List.rdropWhile
  rw [List.reverse_cons, List.dropWhile_append, hrev]
  by_cases h : (cs.reverse.dropWhile p).isEmpty
  · rw [if_pos h, if_pos h]
    by_cases hp : p c <;> simp [List.dropWhile, hp]
  · rw [if_neg h, if_neg h, List.reverse_append]
    simp

lemma sep_rstrip {l : List Char} (hl : Sep l) :
    Sep (l.rdropWhile (fun c => c == '_')) ∧
    ((l.rdropWhile (fun c => c == '_')).head? = l.head? ∨
      l.rdropWhile (fun c => c == '_') = []) ∧
    (∀ d ds, l = d :: ds → isAlnumLower d = true →
      l.rdropWhile (fun c => c == '_') ≠ []) := by
  induction hl with
  | nil => exact ⟨Sep.nil, Or.inr rfl, by intro d ds h; cases h⟩
  | uLast =>
    refine ⟨?_, ?_, ?_⟩
    · simpa [rdropWhile_cons, List.rdropWhile_nil] using Sep.nil
    · right; simp [rdropWhile_cons, List.rdropWhile_nil]
    · intro d ds h ha
      cases h
      simp [isAlnumLower] at ha
  | @alnum c cs h hs ih =>
    have hpc : (c == '_') = false := alnum_ne_under h
    by_cases he : (cs.rdropWhile (fun x => x == '_')).isEmpty
    · refine ⟨?_, ?_, ?_⟩
      · rw [rdropWhile_cons, if_pos he, if_neg (by simp [hpc])]
        exact Sep.alnum h Sep.nil
      · left
        rw [rdropWhile_cons, if_pos he, if_neg (by simp [hpc])]
        simp
      · intro d ds hd ha
        rw [rdropWhile_cons, if_pos he, if_neg (by simp [hpc])]
        simp
    · refine ⟨?_, ?_, ?_⟩
      · rw [rdropWhile_cons, if_neg (by simp [he])]
        exact Sep.alnum h ih.1
      · left
        rw [rdropWhile_cons, if_neg (by simp [he])]
        simp
      · intro d ds hd ha
        rw [rdropWhile_cons, if_neg (by simp [he])]
        simp
  | @uCons c cs h hs ih =>
    have hne : (c :: cs).rdropWhile (fun x => x == '_') ≠ [] :=
      ih.2.2 c cs rfl h
    have hee : ((c :: cs).rdropWhile (fun x => x == '_')).isEmpty = false := by
      rcases hx : (c :: cs).rdropWhile (fun x => x == '_') with _ | ⟨a, as⟩
      · exact absurd hx hne
      · simp
    have hstep : ('_' :: c :: cs).rdropWhile (fun x => x == '_') =
        '_' :: (c :: cs).rdropWhile (fun x => x == '_') := by
      rw [rdropWhile_cons, if_neg (by simp [hee])]
    refine ⟨?_, ?_, ?_⟩
    · rw [hstep]
      rcases hh : (c :: cs).rdropWhile (fun x => x == '_') with _ | ⟨d, ds⟩
      · exact absurd hh hne
      · have hhead : d = c := by
          rcases ih.2.1 with hx | hx
          · rw [hh] at hx; simpa using hx
          · exact absurd hx hne
        subst hhead
        rw [hh] at ih
        exact Sep.uCons h ih.1
    · left; rw [hstep]; simp
    · intro d ds hd ha
      cases hd
      simp [isAlnumLower] at ha

/-- Characters that can appear in the output of `normalize_name`. -/
def charOK (c : Char) : Prop := isAlnumLower c = true ∨ c = '_'

lemma charOK_toNat {c : Char} (h : charOK c) : c.toNat ≤ 122 := by
  rcases h with h | h
  · simp [isAlnumLower] at h
    omega
  · subst h; decide

lemma stripAccentChar_id {c : Char} (h : charOK c) : stripAccentChar c = c := by
  have hle : c.toNat ≤ 122 := charOK_toNat h
  have hfind : ACCENT_TABLE.find? (fun kv => kv.1 == c) = none := by
    rw [List.find?_eq_none]
    intro kv hkv
    have hk : ∀ kv ∈ ACCENT_TABLE, 122 < kv.1.toNat := by decide
    simp only [beq_iff_eq]
    intro he
    have := hk kv hkv
    rw [he] at this
    omega
  simp [stripAccentChar, hfind]

lemma pyLowerChar_id {c : Char} (h : charOK c) : pyLowerChar c = c := by
  have hno : ¬(65 ≤ c.toNat ∧ c.toNat ≤ 90) := by
    rcases h with h | h
    · simp [isAlnumLower] at h
      omega
    · subst h; decide
  unfold pyLowerChar
  rw [if_neg]
  simpa using hno

lemma not_ws_of_charOK {c : Char} (h : charOK c) : c.isWhitespace = false := by
  cases hw : c.isWhitespace
  · rfl
  · exfalso
    simp only [Char.isWhitespace, Bool.or_eq_true, decide_eq_true_eq] at hw
    rcases hw with ((rfl | rfl) | rfl) | rfl <;>
      rcases h with h | h <;>
        simp [isAlnumLower] at h

lemma map_id_of {f : Char → Char} :
    ∀ {l : List Char}, (∀ c ∈ l, f c = c) → l.map f = l := by
  intro l
  induction l with
  | nil => intro _; rfl
  | cons a as ih =>
    intro h
    rw [List.map_cons, h a (List.mem_cons_self a as),
      ih (fun c hc => h c (List.mem_cons_of_mem a hc))]

lemma sep_lstrip {l : List Char} (hl : Sep l) :
    Sep (l.dropWhile (fun c => c == '_')) := by
  induction hl with
  | nil => exact Sep.nil
  | alnum h hs ih =>
    rw [List.dropWhile_cons_of_neg (by simp [alnum_ne_under h])]
    exact Sep.alnum h hs
  | uLast => simpa [List.dropWhile] using Sep.nil
  | uCons h hs ih =>
    rw [List.dropWhile_cons_of_pos (by simp),
      List.dropWhile_cons_of_neg (by simp [alnum_ne_under h])]
    exact hs

lemma good_strip {l : List Char} (hl : Sep l) :
    Sep (stripEnds '_' l) ∧
    (∀ d, (stripEnds '_' l).head? = some d → isAlnumLower d = true) ∧
    (∀ d, (stripEnds '_' l).getLast? = some d → isAlnumLower d = true) := by
  unfold stripEnds
  have hsept : Sep (l.dropWhile (fun c => c == '_')) := sep_lstrip hl
  obtain ⟨hsepu, hhu, hneu⟩ := sep_rstrip hsept
  refine ⟨hsepu, ?_, ?_⟩
  · intro d hd
    rcases hhu with hx | hx
    · rw [hx] at hd
      rcases ht : l.dropWhile (fun c => c == '_') with _ | ⟨a, as⟩
      · rw [ht] at hd; cases hd
      · rw [ht] at hd
        have had : a = d := by simpa using hd
        subst had
        have hne : (a == '_') = false := dropWhile_head_false (p := fun c => c == '_') ht
        rcases sep_mem hsept (ht ▸ List.mem_cons_self a as) with hm | hm
        · exact hm
        · rw [hm] at hne; simp at hne
    · rw [hx] at hd; cases hd
  · intro d hd
    have hrw : ((l.dropWhile (fun c => c == '_')).rdropWhile (fun c => c == '_')).getLast? =
        ((l.dropWhile (fun c => c == '_')).reverse.dropWhile (fun c => c == '_')).head? := by
      unfold List.rdropWhile
      rw [List.getLast?_reverse]
    rw [hrw] at hd
    rcases hq : (l.dropWhile (fun c => c == '_')).reverse.dropWhile (fun c => c == '_')
      with _ | ⟨a, as⟩
    · rw [hq] at hd; cases hd
    · rw [hq] at hd
      have had : a = d := by simpa using hd
      subst had
      have hne : (a == '_') = false := dropWhile_head_false (p := fun c => c == '_') hq
      have hmem : a ∈ l.dropWhile (fun c => c == '_') := by
        have h1 : a ∈ (l.dropWhile (fun c => c == '_')).reverse :=
          (List.dropWhile_sublist (fun c => c == '_')).subset (hq ▸ List.mem_cons_self a as)
        exact List.mem_reverse.mp h1
      rcases sep_mem hsept hmem with hm | hm
      · exact hm
      · rw [hm] at hne; simp at hne

lemma stripEnds_id {l : List Char}
    (hh : ∀ d, l.head? = some d → isAlnumLower d = true)
    (hg : ∀ d, l.getLast? = some d → isAlnumLower d = true) :
    stripEnds '_' l = l := by
  unfold stripEnds
  have h1 : l.dropWhile (fun c => c == '_') = l := by
    cases l with
    | nil => rfl
    | cons a as =>
      exact List.dropWhile_cons_of_neg (by simp [alnum_ne_under (hh a rfl)])
  rw [h1, List.rdropWhile_eq_self_iff]
  intro hl
  have h2 := hg (l.getLast hl) (List.getLast?_eq_getLast l hl)
  simp [alnum_ne_under h2]

/-- C5 idempotence core: `normalize_name` is a fixed point on its own
image.  Totality holds by construction (the embedding is a total Lean
function, as the Python original raises no exceptions on any `str`). -/
theorem normalize_name_idem (s : String) :
    normalize_name (normalize_name s) = normalize_name s := by
  have hsepcore : Sep (collapseU (squash (pyLower (_strip_accents (pyStrip s))).data)) := by
    rw [collapseU_id (squash_sep _)]
    exact squash_sep _
  obtain ⟨hsep, hhead, hlast⟩ := good_strip hsepcore
  have hns : normalize_name s = String.mk (stripEnds '_'
      (collapseU (squash (pyLower (_strip_accents (pyStrip s))).data))) := rfl
  rw [hns]
  generalize hu : stripEnds '_'
    (collapseU (squash (pyLower (_strip_accents (pyStrip s))).data)) = u at hsep hhead hlast ⊢
  have hok : ∀ c ∈ u, charOK c := fun c hc => sep_mem hsep hc
  have h1 : pyStrip (String.mk u) = String.mk u := by
    unfold pyStrip pyStripL
    rw [show (String.mk u).data = u from rfl,
      dropWhile_all_false (fun c hc => not_ws_of_charOK (hok c hc)),
      rdropWhile_all_false (fun c hc => not_ws_of_charOK (hok c hc))]
  have h2 : _strip_accents (String.mk u) = String.mk u := by
    unfold _strip_accents
    rw [show (String.mk u).data = u from rfl,
      map_id_of (fun c hc => stripAccentChar_id (hok c hc))]
  have h3 : pyLower (String.mk u) = String.mk u := by
    unfold pyLower
    rw [show (String.mk u).data = u from rfl,
      map_id_of (fun c hc => pyLowerChar_id (hok c hc))]
  show String.mk (stripEnds '_'
    (collapseU (squash (pyLower (_strip_accents (pyStrip (String.mk u)))).data))) = _
  rw [h1, h2, h3, show (String.mk u).data = u from rfl,
    squash_id hsep, collapseU_id hsep, stripEnds_id hhead hlast]

lemma not_ws_of_alpha {c : Char} (h : isAsciiAlpha c = true) : c.isWhitespace = false := by
  cases hw : c.isWhitespace
  · rfl
  · exfalso
    simp only [Char.isWhitespace, Bool.or_eq_true, decide_eq_true_eq] at hw
    rcases hw with ((rfl | rfl) | rfl) | rfl <;> simp [isAsciiAlpha] at h

lemma pyStrip_of_alpha {s : String} (h : ∀ c ∈ s.data, isAsciiAlpha c = true) :
    pyStrip s = s := by
  unfold pyStrip pyStripL
  rw [dropWhile_all_false (fun c hc => not_ws_of_alpha (h c hc)),
    rdropWhile_all_false (fun c hc => not_ws_of_alpha (h c hc))]

/-- C1 counterexample: on the spec's own 2-row fixture, the derived
state-code column is `["PR", "XX"]`, not `["PR", None]` — the two-letter
short-circuit of `derive_sigla_from_name` uppercases `"XX"` instead of
failing the lookup. -/
theorem C1_counterexample :
    pipeline_uf_sigla fixtureTable = some [some "PR", some "XX"] ∧
    pipeline_uf_sigla fixtureTable ≠ some [some "PR", none] := by decide

/-- C1 amended: loading the 2-row fixture with delimiter `;` and running
the enrichment yields `year_month` (`mes`) `["2024-01", "2024-02"]`,
state code (`uf_sigla`) `["PR", "XX"]`, and region (`regiao`)
`["Sul", None]`. -/
theorem C1_amended :
    pipeline_mes fixtureTable = some ["2024-01", "2024-02"] ∧
    pipeline_uf_sigla fixtureTable = some [some "PR", some "XX"] ∧
    pipeline_regiao fixtureTable = some [some "Sul", none] := by decide

/-- C2 counterexample: the module-level `uf_sigla` derivation
(`src/codigo.py:3369`) leaves `None` — not the original raw value — in
the derived column when the state lookup misses, e.g. for
`"Nowhereland"`. -/
theorem C2_counterexample :
    derive_sigla_from_name (some "Nowhereland") = none ∧
    uf_sigla_column ["Nowhereland"] = [none] ∧
    uf_sigla_column ["Nowhereland"] ≠ [some "Nowhereland"] := by decide

/-- C2 amended: no derivation drops rows (both derived columns keep the
input length); the EMPLOYER-state derivation of
`apply_uf_and_municipio_mapping` keeps the original raw value on a
lookup miss (`fillna` fallback); but the module-level `uf_sigla` column
is left null on a miss (the original survives only in the separate `uf`
column). -/
theorem C2_amended :
    (∀ col : List String, (uf_sigla_column col).length = col.length) ∧
    (∀ x : String, lookupTable UF_MAPPING (pyTitle (pyStrip (_strip_accents x))) = none →
      uf_empregador_sigla_cell x = x) ∧
    (∀ col : List String, (col.map uf_empregador_sigla_cell).length = col.length) ∧
    (∀ x : String, derive_sigla_from_name (some x) = none → uf_sigla_column [x] = [none]) := by
  refine ⟨fun col => by simp [uf_sigla_column], ?_, fun col => by simp, ?_⟩
  · intro x h
    simp [uf_empregador_sigla_cell, h]
  · intro x h
    simp [uf_sigla_column, h]

/-- C2 witness: `"Nowhereland"` misses both lookups; the employer-state
cell keeps it. -/
theorem C2_amended_witness :
    lookupTable UF_MAPPING (pyTitle (pyStrip (_strip_accents "Nowhereland"))) = none ∧
    uf_empregador_sigla_cell "Nowhereland" = "Nowhereland" :=
  ⟨by decide, C2_amended.2.1 "Nowhereland" (by decide)⟩

/-- C9: a two-ASCII-letter input short-circuits
`derive_sigla_from_name` to its uppercase form without any table lookup;
in particular `"XX"` maps to `"XX"` (never `none`), and its region is
then `none`. -/
theorem C9_two_letter_shortcut :
    (∀ s : String, s.data.length = 2 → (∀ c ∈ s.data, isAsciiAlpha c = true) →
      derive_sigla_from_name (some s) = some (pyUpper s)) ∧
    derive_sigla_from_name (some "XX") = some "XX" ∧
    derive_regiao_from_sigla (derive_sigla_from_name (some "XX")) = none := by
  refine ⟨?_, by decide, by decide⟩
  intro s hlen halpha
  show (if ((pyStrip s).data.length == 2 && (pyStrip s).data.all isAsciiAlpha) = true
      then some (pyUpper (pyStrip s))
      else lookupTable UF_SIGLAS (normalize_uf_name (pyStrip s))) = some (pyUpper s)
  rw [pyStrip_of_alpha halpha]
  rw [if_pos]
  simp only [Bool.and_eq_true, beq_iff_eq]
  exact ⟨by simpa using hlen, List.all_eq_true.mpr (fun c hc => halpha c hc)⟩

/-- C9 witness: `"pr"` is two ASCII letters and resolves to `"PR"` via
the short-circuit. -/
theorem C9_two_letter_shortcut_witness :
    ("pr" : String).data.length = 2 ∧
    derive_sigla_from_name (some "pr") = some (pyUpper "pr") :=
  ⟨by decide, C9_two_letter_shortcut.1 "pr" (by decide) (by decide)⟩

/-- C10: the enrichment cleanup rewrites every object-dtype column via
`astype(str).str.strip()`, so a missing value in such a column becomes
the literal string `"nan"` (no longer a null); downstream consumers of
the cleaned table can only see the string. -/
theorem C10_nan_literal :
    (∀ (cols : List PColumn) (j : Nat) (c : PColumn),
      cols[j]? = some c → c.isObject = true →
      ∀ i : Nat, c.cells[i]? = some Cell.null →
      ∃ c2 : PColumn, (clean_spaces cols)[j]? = some c2 ∧
        c2.cells[i]? = some (Cell.str "nan")) ∧
    clean_text_cell Cell.null = "nan" := by
  refine ⟨?_, by decide⟩
  intro cols j c hj hobj i hi
  refine ⟨PColumn.mk c.name c.isObject (c.cells.map (fun x => Cell.str (clean_text_cell x))), ?_, ?_⟩
  · unfold clean_spaces
    rw [List.getElem?_map, hj]
    simp [hobj]
  · simp only []
    rw [List.getElem?_map, hi]
    have : clean_text_cell Cell.null = "nan" := by decide
    simp [this]

/-- C10 witness: a one-column, one-null table evaluates to the literal
string `"nan"`. -/
theorem C10_nan_literal_witness :
    ∃ c2 : PColumn, (clean_spaces [PColumn.mk "uf" true [Cell.null]])[0]? = some c2 ∧
      c2.cells[0]? = some (Cell.str "nan") :=
  C10_nan_literal.1 [PColumn.mk "uf" true [Cell.null]] 0 (PColumn.mk "uf" true [Cell.null])
    rfl rfl 0 rfl

lemma mem_guardFilter {b : Bool} {p : FRow → Bool} {t : List FRow} {r : FRow} :
    r ∈ guardFilter b p t ↔ r ∈ t ∧ (b = true → p r = true) := by
  unfold guardFilter
  cases b <;> simp [List.mem_filter]

/-- C8: the global filter block applies the active predicates as a strict
conjunction — a row survives exactly when it satisfies every active
predicate — and the all-inactive selection (no set chosen, sentinel
month/year, empty search; in particular every empty set-membership
selection) returns the table unchanged. -/
theorem C8_filter_semantics :
    (∀ t : List FRow, applyFilters noSelections t = t) ∧
    (∀ (sel : Selections) (t : List FRow) (r : FRow),
      r ∈ applyFilters sel t ↔ r ∈ t ∧ RowSat sel r) := by
  constructor
  · intro t
    simp [applyFilters, guardFilter, noSelections,
      show ("" : String).isEmpty = true from by decide]
  · intro sel t r
    unfold applyFilters RowSat
    simp only [mem_guardFilter, and_assoc, Bool.not_eq_true']

lemma lastErrFrom_nil {E T : Type} (attempt : String → String → Except E T)
    (last : Option E) : lastErrFrom attempt last [] = last := by
  simp [lastErrFrom, errorsOf]

lemma lastErrFrom_cons_ok {E T : Type} {attempt : String → String → Except E T}
    {p : String × String} {t0 : T} (h : attempt p.1 p.2 = .ok t0)
    (last : Option E) (rest : List (String × String)) :
    lastErrFrom attempt last (p :: rest) = lastErrFrom attempt last rest := by
  unfold lastErrFrom
  rw [show errorsOf attempt (p :: rest) = errorsOf attempt rest from by
    simp [errorsOf, List.filterMap_cons, h]]

lemma lastErrFrom_cons_err {E T : Type} {attempt : String → String → Except E T}
    {p : String × String} {e0 : E} (h : attempt p.1 p.2 = .error e0)
    (last : Option E) (rest : List (String × String)) :
    lastErrFrom attempt last (p :: rest) = lastErrFrom attempt (some e0) rest := by
  unfold lastErrFrom
  rw [show errorsOf attempt (p :: rest) = e0 :: errorsOf attempt rest from by
    simp [errorsOf, List.filterMap_cons, h]]
  cases herr : errorsOf attempt rest with
  | nil => simp
  | cons a as =>
    obtain ⟨x, hx⟩ : ∃ x, (a :: as).getLast? = some x := by
      clear herr
      induction as generalizing a with
      | nil => exact ⟨a, rfl⟩
      | cons b bs ihb => rw [List.getLast?_cons_cons]; exact ihb b
    rw [List.getLast?_cons_cons, hx]

lemma tryPairs_spec {E T : Type} (attempt : String → String → Except E T) (ncols : T → Nat) :
    ∀ (pairs : List (String × String)) (last : Option E),
      (∀ t enc sep, tryPairs attempt ncols pairs last = .ok (t, enc, sep) →
        pairs.find? (pairOK attempt ncols) = some (enc, sep) ∧
        attempt enc sep = .ok t ∧ 1 ≤ ncols t) ∧
      (∀ e, tryPairs attempt ncols pairs last = .error e →
        (∀ p ∈ pairs, pairOK attempt ncols p = false) ∧ e = lastErrFrom attempt last pairs) ∧
      ((∀ p ∈ pairs, pairOK attempt ncols p = false) →
        tryPairs attempt ncols pairs last = .error (lastErrFrom attempt last pairs)) := by
  intro pairs
  induction pairs with
  | nil =>
    intro last
    refine ⟨?_, ?_, ?_⟩
    · intro t enc sep h
      simp [tryPairs] at h
    · intro e h
      simp only [tryPairs, Except.error.injEq] at h
      exact ⟨by simp, by rw [← h, lastErrFrom_nil]⟩
    · intro _
      rw [lastErrFrom_nil]
      rfl
  | cons p rest ih =>
    intro last
    cases hA : attempt p.1 p.2 with
    | ok t0 =>
      by_cases hn : 1 ≤ ncols t0
      · have hred : tryPairs attempt ncols (p :: rest) last = .ok (t0, p.1, p.2) := by
          simp [tryPairs, hA, hn]
        have hok : pairOK attempt ncols p = true := by
          simp [pairOK, hA, hn]
        refine ⟨?_, ?_, ?_⟩
        · intro t enc sep h
          rw [hred] at h
          have h2 : t0 = t ∧ p = (enc, sep) := by simpa using h
          obtain ⟨rfl, rfl⟩ := h2
          exact ⟨by rw [List.find?_cons_of_pos _ hok], hA, hn⟩
        · intro e h
          rw [hred] at h
          cases h
        · intro hall
          rw [hall p (List.mem_cons_self p rest)] at hok
          cases hok
      · have hred : tryPairs attempt ncols (p :: rest) last =
            tryPairs attempt ncols rest last := by
          simp [tryPairs, hA, hn]
        have hok : pairOK attempt ncols p = false := by
          simp [pairOK, hA, hn]
        refine ⟨?_, ?_, ?_⟩
        · intro t enc sep h
          rw [hred] at h
          obtain ⟨hf, ha, hc⟩ := (ih last).1 t enc sep h
          exact ⟨by rw [List.find?_cons_of_neg _ (by simp [hok]), hf], ha, hc⟩
        · intro e h
          rw [hred] at h
          obtain ⟨hall, he⟩ := (ih last).2.1 e h
          refine ⟨?_, by rw [he, lastErrFrom_cons_ok hA]⟩
          intro q hq
          rcases List.mem_cons.mp hq with rfl | hq2
          · exact hok
          · exact hall q hq2
        · intro hall
          rw [hred, lastErrFrom_cons_ok hA]
          exact (ih last).2.2 (fun q hq => hall q (List.mem_cons_of_mem p hq))
    | error e0 =>
      have hred : tryPairs attempt ncols (p :: rest) last =
          tryPairs attempt ncols rest (some e0) := by
        simp [tryPairs, hA]
      have hok : pairOK attempt ncols p = false := by
        simp [pairOK, hA]
      refine ⟨?_, ?_, ?_⟩
      · intro t enc sep h
        rw [hred] at h
        obtain ⟨hf, ha, hc⟩ := (ih (some e0)).1 t enc sep h
        exact ⟨by rw [List.find?_cons_of_neg _ (by simp [hok]), hf], ha, hc⟩
      · intro e h
        rw [hred] at h
        obtain ⟨hall, he⟩ := (ih (some e0)).2.1 e h
        refine ⟨?_, by rw [he, lastErrFrom_cons_err hA]⟩
        intro q hq
        rcases List.mem_cons.mp hq with rfl | hq2
        · exact hok
        · exact hall q hq2
      · intro hall
        rw [hred, lastErrFrom_cons_err hA]
        exact (ih (some e0)).2.2 (fun q hq => hall q (List.mem_cons_of_mem p hq))

/-- C3: the loader accepts exactly the first (encoding, delimiter) pair
— encodings in caller priority order, delimiter candidates in order
within each — whose parse yields a table with at least one column,
returning that table with the accepted pair; and it fails carrying the
last underlying parse exception (`last_err`) precisely when every pair
failed. -/
theorem C3_loader {E T : Type} (attempt : String → String → Except E T) (ncols : T → Nat)
    (sep_opt sniffed : Option String) (encodings : List String) :
    (∀ t enc sep,
      load_csv_simple attempt ncols sep_opt sniffed encodings = .ok (t, enc, sep) →
      (csvPairs encodings (buildSeps sep_opt sniffed)).find? (pairOK attempt ncols) =
        some (enc, sep) ∧ attempt enc sep = .ok t ∧ 1 ≤ ncols t) ∧
    (∀ e, load_csv_simple attempt ncols sep_opt sniffed encodings = .error e →
      (∀ p ∈ csvPairs encodings (buildSeps sep_opt sniffed), pairOK attempt ncols p = false) ∧
      e = lastErr attempt (csvPairs encodings (buildSeps sep_opt sniffed))) ∧
    ((∀ p ∈ csvPairs encodings (buildSeps sep_opt sniffed), pairOK attempt ncols p = false) →
      load_csv_simple attempt ncols sep_opt sniffed encodings =
        .error (lastErr attempt (csvPairs encodings (buildSeps sep_opt sniffed)))) :=
  tryPairs_spec attempt ncols (csvPairs encodings (buildSeps sep_opt sniffed)) none

/-- C3 witness: with only (latin1, `;`) parsing (two columns), the
loader accepts that first pair. -/
theorem C3_loader_witness :
    (csvPairs ["latin1", "utf-8"] (buildSeps none none)).find? (pairOK demoAttempt demoNcols) =
      some ("latin1", ";") ∧
    demoAttempt "latin1" ";" = .ok ["c1", "c2"] ∧ 1 ≤ demoNcols ["c1", "c2"] :=
  (C3_loader demoAttempt demoNcols none none ["latin1", "utf-8"]).1 ["c1", "c2"] "latin1" ";" rfl

lemma aggTables_empty_iff {E R : Type} (files : List String)
    (loadOne : String → Except E (List R)) :
    aggTables files loadOne = [] ↔ ∀ f ∈ files, ∃ e, loadOne f = .error e := by
  unfold aggTables
  rw [List.filterMap_eq_nil_iff]
  constructor
  · intro h f hf
    have := h f hf
    cases hl : loadOne f with
    | ok rows => rw [hl] at this; simp at this
    | error e => exact ⟨e, rfl⟩
  · intro h f hf
    obtain ⟨e, he⟩ := h f hf
    rw [he]

/-- C4: on a directory, the aggregator fails with `NoFilesFoundError`
exactly when the `*.csv` enumeration is empty; it fails with
`NoFilesLoadedError` exactly when files exist but every one fails to
load; otherwise it succeeds and its rows are exactly the rows of the
successfully loaded files, each tagged with its origin file name. -/
theorem C4_aggregator {E R : Type} (files : List String)
    (loadOne : String → Except E (List R)) :
    (load_all_csvs_from_folder files loadOne = .error .noFilesFound ↔ files = []) ∧
    (load_all_csvs_from_folder files loadOne = .error .noFilesLoaded ↔
      files ≠ [] ∧ ∀ f ∈ files, ∃ e, loadOne f = .error e) ∧
    (∀ rows, load_all_csvs_from_folder files loadOne = .ok rows →
      ∀ pr : R × String, pr ∈ rows ↔
        ∃ f ∈ files, ∃ t, loadOne f = .ok t ∧ pr.2 = f ∧ pr.1 ∈ t) := by
  unfold load_all_csvs_from_folder
  by_cases hfe : files.isEmpty
  · have hfil : files = [] := List.isEmpty_iff.mp hfe
    subst hfil
    refine ⟨by simp, by simp, ?_⟩
    intro rows h
    simp at h
  · have hne : files ≠ [] := fun hc => by rw [hc] at hfe; simp at hfe
    rw [if_neg (by simpa using hfe)]
    by_cases hde : (aggTables files loadOne).isEmpty
    · have hdes : aggTables files loadOne = [] := List.isEmpty_iff.mp hde
      rw [if_pos (by simpa [List.isEmpty_iff] using hdes)]
      refine ⟨by simp [hne], ?_, ?_⟩
      · simp only [Except.error.injEq]
        constructor
        · intro _
          exact ⟨hne, (aggTables_empty_iff files loadOne).mp hdes⟩
        · intro _
          trivial
      · intro rows h
        cases h
    · rw [if_neg hde]
      refine ⟨by simp [hne], ?_, ?_⟩
      · constructor
        · intro h
          cases h
        · intro ⟨_, hall⟩
          exact absurd (List.isEmpty_iff.mpr ((aggTables_empty_iff files loadOne).mpr hall)) hde
      · intro rows h
        obtain rfl : (aggTables files loadOne).flatten = rows := by
          simpa using h
        intro pr
        constructor
        · intro hpr
          obtain ⟨l, hl, hpl⟩ := List.mem_flatten.mp hpr
          obtain ⟨f, hf, hFf⟩ := List.mem_filterMap.mp hl
          cases hLo : loadOne f with
          | ok t =>
            rw [hLo] at hFf
            obtain rfl : t.map (fun r => (r, f)) = l := by simpa using hFf
            obtain ⟨r, hr, hre⟩ := List.mem_map.mp hpl
            refine ⟨f, hf, t, hLo, ?_, ?_⟩
            · rw [← hre]
            · rw [← hre]
              exact hr
          | error e =>
            rw [hLo] at hFf
            simp at hFf
        · intro ⟨f, hf, t, hLo, hsnd, hfst⟩
          apply List.mem_flatten.mpr
          refine ⟨t.map (fun r => (r, f)), ?_, ?_⟩
          · exact List.mem_filterMap.mpr ⟨f, hf, by rw [hLo]⟩
          · apply List.mem_map.mpr
            refine ⟨pr.1, hfst, ?_⟩
            rw [← hsnd]

lemma dictInsert_append {k v : String} :
    ∀ {d : List (String × String)}, (∀ kv ∈ d, (kv.1 == k) = false) →
      dictInsert k v d = d ++ [(k, v)] := by
  intro d
  induction d with
  | nil => intro _; rfl
  | cons kv rest ih =>
    intro h
    unfold dictInsert
    rw [if_neg (by simp [h kv (List.mem_cons_self kv rest)]),
      ih (fun q hq => h q (List.mem_cons_of_mem kv hq))]
    rfl

lemma buildDict_go :
    ∀ (pairs acc : List (String × String)),
      ((acc ++ pairs).map (fun kv => kv.1)).Nodup →
      pairs.foldl (fun a kv => dictInsert kv.1 kv.2 a) acc = acc ++ pairs := by
  intro pairs
  induction pairs with
  | nil => intro acc _; simp
  | cons kv rest ih =>
    intro acc hnd
    rw [List.foldl_cons]
    have hsplit : ((acc ++ kv :: rest).map (fun q => q.1)) =
        acc.map (fun q => q.1) ++ kv.1 :: rest.map (fun q => q.1) := by
      simp
    rw [hsplit] at hnd
    have hdisj := (List.nodup_append.mp hnd).2.2
    have hno : ∀ q ∈ acc, (q.1 == kv.1) = false := by
      intro q hq
      have : q.1 ≠ kv.1 := fun hc =>
        hdisj (List.mem_map_of_mem (fun x => x.1) hq) (by rw [hc]; exact List.mem_cons_self _ _)
      simp [this]
    rw [dictInsert_append hno]
    have := ih (acc ++ [(kv.1, kv.2)]) (by simpa using hnd)
    rw [show ((kv.1, kv.2) : String × String) = kv from rfl] at this
    rw [this]
    simp

lemma buildDict_nodup {pairs : List (String × String)}
    (hnd : (pairs.map (fun kv => kv.1)).Nodup) : buildDict pairs = pairs := by
  have := buildDict_go pairs [] (by simpa using hnd)
  simpa [buildDict] using this

lemma dictGet_dictInsert_self (k v : String) :
    ∀ (d : List (String × String)), dictGet (dictInsert k v d) k = some v := by
  intro d
  induction d with
  | nil => simp [dictInsert, dictGet]
  | cons kv rest ih =>
    unfold dictInsert
    by_cases h : (kv.1 == k) = true
    · rw [if_pos h]
      simp [dictGet]
    · rw [if_neg h]
      show (if (kv.1 == k) = true then some kv.2 else dictGet (dictInsert k v rest) k) = some v
      rw [if_neg h]
      exact ih

lemma dictGet_dictInsert_ne {k role : String} (hne : k ≠ role) (v : String) :
    ∀ (d : List (String × String)), dictGet (dictInsert k v d) role = dictGet d role := by
  intro d
  induction d with
  | nil =>
    show (if (k == role) = true then some v else dictGet [] role) = dictGet [] role
    rw [if_neg (by simp [hne])]
  | cons kv rest ih =>
    unfold dictInsert
    by_cases h : (kv.1 == k) = true
    · have hk : kv.1 = k := by simpa using h
      rw [if_pos h]
      show (if (k == role) = true then some v else dictGet rest role) =
        (if (kv.1 == role) = true then some kv.2 else dictGet rest role)
      rw [if_neg (by simp [hne]), if_neg (by simp [hk, hne])]
    · rw [if_neg h]
      show (if (kv.1 == role) = true then some kv.2 else dictGet (dictInsert k v rest) role) =
        (if (kv.1 == role) = true then some kv.2 else dictGet rest role)
      by_cases h2 : (kv.1 == role) = true
      · rw [if_pos h2, if_pos h2]
      · rw [if_neg h2, if_neg h2]
        exact ih

lemma dictGet_roles_fold_untouched (f : String × List String → Option String) :
    ∀ (rs : List (String × List String)) (acc : List (String × String)) (role : String),
      (∀ rp ∈ rs, rp.1 ≠ role) →
      dictGet (rs.foldl (fun a rp =>
          match f rp with
          | some v => dictInsert rp.1 v a
          | none => a) acc) role = dictGet acc role := by
  intro rs
  induction rs with
  | nil => intro acc role _; rfl
  | cons rp rest ih =>
    intro acc role h
    rw [List.foldl_cons]
    rw [ih _ role (fun q hq => h q (List.mem_cons_of_mem rp hq))]
    cases hf : f rp with
    | some v => exact dictGet_dictInsert_ne (h rp (List.mem_cons_self rp rest)) v acc
    | none => rfl

lemma dictGet_roles_fold (f : String × List String → Option String) :
    ∀ (rs : List (String × List String)) (acc : List (String × String))
      (role : String) (pats : List String),
      (role, pats) ∈ rs → (rs.map (fun rp => rp.1)).Nodup →
      dictGet (rs.foldl (fun a rp =>
          match f rp with
          | some v => dictInsert rp.1 v a
          | none => a) acc) role =
        match f (role, pats) with
        | some v => some v
        | none => dictGet acc role := by
  intro rs
  induction rs with
  | nil => intro acc role pats hmem; cases hmem
  | cons rp rest ih =>
    intro acc role pats hmem hnd
    rw [List.map_cons, List.nodup_cons] at hnd
    rw [List.foldl_cons]
    rcases List.mem_cons.mp hmem with heq | hmemr
    · cases heq
      have hnotin : ∀ q ∈ rest, q.1 ≠ role := by
        intro q hq hc
        exact hnd.1 (hc ▸ List.mem_map_of_mem (fun x => x.1) hq)
      rw [dictGet_roles_fold_untouched f rest _ role hnotin]
      cases hf : f (role, pats) with
      | some v => exact dictGet_dictInsert_self role v acc
      | none => rfl
    · have hne : rp.1 ≠ role := by
        intro hc
        exact hnd.1 (hc ▸ List.mem_map_of_mem (fun x => x.1) hmemr)
      rw [ih _ role pats hmemr hnd.2]
      cases hf : f (role, pats) with
      | some v => rfl
      | none =>
        cases hg : f rp with
        | some v2 => exact dictGet_dictInsert_ne hne v2 acc
        | none => rfl

lemma dictContains_diag (headers : List String) (p : String) :
    dictContains (headers.map (fun h => (h, h))) p = headers.any (fun h => h == p) := by
  induction headers with
  | nil => rfl
  | cons h hs ih =>
    show (((h, h).1 == p) || dictContains (hs.map (fun x => (x, x))) p) =
      ((h == p) || hs.any (fun x => x == p))
    rw [ih]

lemma dictGet_diag_of_any :
    ∀ {headers : List String} {p : String},
      headers.any (fun h => h == p) = true →
      dictGet (headers.map (fun h => (h, h))) p = some p := by
  intro headers
  induction headers with
  | nil => intro p h; simp at h
  | cons h hs ih =>
    intro p hany
    show (if ((h, h).1 == p) = true then some (h, h).2
      else dictGet (hs.map (fun x => (x, x))) p) = some p
    by_cases hcase : (h == p) = true
    · rw [if_pos hcase]
      have hp : h = p := by simpa using hcase
      rw [hp]
    · rw [if_neg (by simpa using hcase)]
      apply ih
      rw [List.any_cons] at hany
      simpa [hcase] using hany

lemma find?_diag_partial (headers : List String) (pats : List String) :
    ((headers.map (fun h => (h, h))).find?
        (fun kv => pats.any (fun pat => strContains kv.2 pat))).map (fun kv => kv.1) =
      headers.find? (fun h => pats.any (fun pat => strContains h pat)) := by
  induction headers with
  | nil => rfl
  | cons h hs ih =>
    rw [List.map_cons]
    by_cases hc : (pats.any (fun pat => strContains h pat)) = true
    · rw [List.find?_cons_of_pos
          (p := fun kv : String × String => pats.any (fun pat => strContains kv.2 pat)) _ hc,
        List.find?_cons_of_pos
          (p := fun h2 : String => pats.any (fun pat => strContains h2 pat)) _ hc]
      rfl
    · rw [List.find?_cons_of_neg
          (p := fun kv : String × String => pats.any (fun pat => strContains kv.2 pat)) _
          (by simpa using hc),
        List.find?_cons_of_neg
          (p := fun h2 : String => pats.any (fun pat => strContains h2 pat)) _ hc]
      exact ih

lemma resolveRole_diag (headers : List String) (pats : List String) :
    resolveRole (headers.map (fun h => (h, h))) pats =
      match pats.find? (fun p => headers.any (fun h => h == p)) with
      | some p => some p
      | none => headers.find? (fun h => pats.any (fun pat => strContains h pat)) := by
  unfold resolveRole
  rw [show (fun p => dictContains (headers.map (fun h => (h, h))) p) =
      (fun p => headers.any (fun h => h == p)) from
    funext (fun p => dictContains_diag headers p)]
  cases hf : pats.find? (fun p => headers.any (fun h => h == p)) with
  | none => exact find?_diag_partial headers pats
  | some p =>
    have hp : headers.any (fun h => h == p) = true :=
      List.find?_some (p := fun q => headers.any (fun h => h == q)) hf
    exact dictGet_diag_of_any hp

/-- C6: after header normalization and de-duplication, each semantic role
binds by exact match first — the first candidate pattern that equals some
header — and otherwise to the first header, in header order, containing
any of the role's candidate patterns as a substring; a role with no match
is absent from the mapping. -/
theorem C6_role_resolution (headers : List String)
    (hnorm : ∀ h ∈ headers, normalize_name h = h) (hnd : headers.Nodup)
    (role : String) (pats : List String) (hmem : (role, pats) ∈ PATTERNS) :
    dictGet (detect_and_map_columns headers) role =
      match pats.find? (fun p => headers.any (fun h => h == p)) with
      | some p => some p
      | none => headers.find? (fun h => pats.any (fun pat => strContains h pat)) := by
  unfold detect_and_map_columns
  rw [show headers.map (fun h => (normalize_name h, h)) = headers.map (fun h => (h, h)) from
    List.map_congr_left (fun h hh => by rw [hnorm h hh])]
  have hkeys : (headers.map (fun h => (h, h))).map (fun kv => kv.1) = headers := by
    rw [List.map_map]
    exact List.map_id headers
  rw [buildDict_nodup (by rw [hkeys]; exact hnd)]
  rw [dictGet_roles_fold (fun rp => resolveRole (headers.map (fun h => (h, h))) rp.2)
    PATTERNS [] role pats hmem (by decide)]
  rw [show dictGet [] role = none from rfl]
  cases hr : resolveRole (headers.map (fun h => (h, h))) pats with
  | none =>
    rw [← resolveRole_diag headers pats, hr]
  | some v =>
    rw [← resolveRole_diag headers pats, hr]

/-- C6 witness: on headers `["uf", "data"]` the `uf` role binds by exact
match to the header `"uf"`. -/
theorem C6_role_resolution_witness :
    dictGet (detect_and_map_columns ["uf", "data"]) "uf" =
      match ["uf_munic_acidente", "uf", "uf_municipio", "uf_acidente", "uf_munic_empregador",
          "ufmunicempregador"].find? (fun p => ["uf", "data"].any (fun h => h == p)) with
      | some p => some p
      | none => ["uf", "data"].find? (fun h =>
          ["uf_munic_acidente", "uf", "uf_municipio", "uf_acidente", "uf_munic_empregador",
            "ufmunicempregador"].any (fun pat => strContains h pat)) :=
  C6_role_resolution ["uf", "data"] (by decide) (by decide) "uf"
    ["uf_munic_acidente", "uf", "uf_municipio", "uf_acidente", "uf_munic_empregador",
      "ufmunicempregador"] (by decide)

/-- C4 witness: a two-file directory with one well-formed and one broken
file loads exactly the good file's row, tagged with its file name. -/
theorem C4_aggregator_witness :
    (("r1", "a.csv") ∈ ([(("r1" : String), ("a.csv" : String))] : List (String × String))) ↔
      ∃ f ∈ ["a.csv", "bad.csv"], ∃ t, demoLoadOne f = .ok t ∧
        ("r1", "a.csv").2 = f ∧ ("r1", "a.csv").1 ∈ t :=
  (C4_aggregator ["a.csv", "bad.csv"] demoLoadOne).2.2 [("r1", "a.csv")] rfl ("r1", "a.csv")


lemma splitOnChar_cons (sep a : Char) (as : List Char) :
    splitOnChar sep (a :: as) =
      if a == sep then [] :: splitOnChar sep as
      else
        match splitOnChar sep as with
        | [] => [[a]]
        | x :: xs => (a :: x) :: xs := rfl

lemma splitOnChar_no_sep {sep : Char} :
    ∀ {xs : List Char}, (∀ c ∈ xs, (c == sep) = false) → splitOnChar sep xs = [xs] := by
  intro xs
  induction xs with
  | nil => intro _; rfl
  | cons a as ih =>
    intro h
    rw [splitOnChar_cons, if_neg (by simp [h a (List.mem_cons_self a as)]),
      ih (fun c hc => h c (List.mem_cons_of_mem a hc))]

lemma splitOnChar_append_sep {sep : Char} (ys : List Char) :
    ∀ {xs : List Char}, (∀ c ∈ xs, (c == sep) = false) →
      splitOnChar sep (xs ++ sep :: ys) = xs :: splitOnChar sep ys := by
  intro xs
  induction xs with
  | nil =>
    intro _
    show splitOnChar sep (sep :: ys) = [] :: splitOnChar sep ys
    rw [splitOnChar_cons, if_pos (by simp)]
  | cons a as ih =>
    intro h
    show splitOnChar sep (a :: (as ++ sep :: ys)) = (a :: as) :: splitOnChar sep ys
    rw [splitOnChar_cons, if_neg (by simp [h a (List.mem_cons_self a as)]),
      ih (fun c hc => h c (List.mem_cons_of_mem a hc))]

lemma pyStripL_id {l : List Char}
    (hh : ∀ c, l.head? = some c → c.isWhitespace = false)
    (hg : ∀ c, l.getLast? = some c → c.isWhitespace = false) :
    pyStripL l = l := by
  unfold pyStripL
  have h1 : l.dropWhile Char.isWhitespace = l := by
    cases l with
    | nil => rfl
    | cons a as => exact List.dropWhile_cons_of_neg (by simp [hh a rfl])
  rw [h1, List.rdropWhile_eq_self_iff]
  intro hl
  have h2 := hg (l.getLast hl) (List.getLast?_eq_getLast l hl)
  simp [h2]

lemma entryOK_parts {kv : String × String} (h : entryOK kv = true) :
    (∀ c ∈ kv.1.data, (c == '\t') = false ∧ (c == '\n') = false) ∧
    (∀ c ∈ kv.2.data, (c == '\t') = false ∧ (c == '\n') = false) ∧
    (∃ c0 cs, kv.1.data = c0 :: cs ∧ c0.isWhitespace = false) ∧
    (∃ d0, kv.2.data.getLast? = some d0 ∧ d0.isWhitespace = false) := by
  unfold entryOK at h
  simp only [Bool.and_eq_true] at h
  obtain ⟨⟨⟨h1, h2⟩, h3⟩, h4⟩ := h
  refine ⟨?_, ?_, ?_, ?_⟩
  · intro c hc
    have := List.all_eq_true.mp h1 c hc
    simpa using this
  · intro c hc
    have := List.all_eq_true.mp h2 c hc
    simpa using this
  · revert h3
    cases hd : kv.1.data with
    | nil => intro h3; cases h3
    | cons c0 cs =>
      intro h3
      exact ⟨c0, cs, rfl, by simpa using h3⟩
  · revert h4
    generalize hgen : kv.2.data.getLast? = o
    cases o with
    | none => intro h4; cases h4
    | some d0 =>
      intro h4
      exact ⟨d0, rfl, by simpa using h4⟩

lemma keys_dictInsert_mem {k v x : String} :
    ∀ {d : List (String × String)},
      x ∈ (dictInsert k v d).map (fun kv => kv.1) →
      x = k ∨ x ∈ d.map (fun kv => kv.1) := by
  intro d
  induction d with
  | nil =>
    intro h
    simp [dictInsert] at h
    exact Or.inl h
  | cons kv0 rest ih =>
    intro h
    unfold dictInsert at h
    by_cases hc : (kv0.1 == k) = true
    · rw [if_pos hc] at h
      rw [List.map_cons, List.mem_cons] at h
      rcases h with h | h
      · exact Or.inl h
      · right
        rw [List.map_cons, List.mem_cons]
        exact Or.inr h
    · rw [if_neg hc] at h
      rw [List.map_cons, List.mem_cons] at h
      rcases h with h | h
      · right
        rw [List.map_cons, List.mem_cons]
        exact Or.inl h
      · rcases ih h with h2 | h2
        · exact Or.inl h2
        · right
          rw [List.map_cons, List.mem_cons]
          exact Or.inr h2

lemma nodup_keys_dictInsert {k v : String} :
    ∀ {d : List (String × String)}, (d.map (fun kv => kv.1)).Nodup →
      ((dictInsert k v d).map (fun kv => kv.1)).Nodup := by
  intro d
  induction d with
  | nil => intro _; simp [dictInsert]
  | cons kv0 rest ih =>
    intro h
    rw [List.map_cons, List.nodup_cons] at h
    unfold dictInsert
    by_cases hc : (kv0.1 == k) = true
    · rw [if_pos hc, List.map_cons, List.nodup_cons]
      have hk0 : kv0.1 = k := by simpa using hc
      constructor
      · show k ∉ rest.map (fun kv => kv.1)
        rw [← hk0]
        exact h.1
      · exact h.2
    · rw [if_neg hc, List.map_cons, List.nodup_cons]
      refine ⟨?_, ih h.2⟩
      intro hmem
      rcases keys_dictInsert_mem hmem with h2 | h2
      · rw [h2] at hc
        simp at hc
      · exact h.1 h2

lemma foldMapping_nodup (b : Bool) :
    ∀ (lines : List (List Char)) (acc : List (String × String)),
      (acc.map (fun kv => kv.1)).Nodup →
      ((lines.foldl (foldMappingLine b) acc).map (fun kv => kv.1)).Nodup := by
  intro lines
  induction lines with
  | nil => intro acc h; exact h
  | cons line rest ih =>
    intro acc h
    rw [List.foldl_cons]
    apply ih
    unfold foldMappingLine
    cases hs : splitOnChar '\t' (if b then pyStripL line else line) with
    | nil => exact h
    | cons x xs =>
      cases xs with
      | nil => exact h
      | cons y ys =>
        cases ys with
        | nil => exact nodup_keys_dictInsert h
        | cons z zs => exact h

lemma serialize_split :
    ∀ (m : List (String × String)), (∀ kv ∈ m, entryOK kv = true) →
      splitOnChar '\n' (serialize_mapping m).data =
        (m.map (fun kv : String × String => kv.1.data ++ '\t' :: kv.2.data)) ++ [[]] := by
  intro m
  induction m with
  | nil => intro _; rfl
  | cons kv rest ih =>
    intro h
    obtain ⟨hk1, hk2, _, _⟩ := entryOK_parts (h kv (List.mem_cons_self kv rest))
    have hser : (serialize_mapping (kv :: rest)).data =
        (kv.1.data ++ '\t' :: kv.2.data) ++ '\n' :: (serialize_mapping rest).data := by
      show ((kv :: rest).flatMap (fun q => q.1.data ++ '\t' :: q.2.data ++ ['\n'])) =
        (kv.1.data ++ '\t' :: kv.2.data) ++
          '\n' :: (rest.flatMap (fun q => q.1.data ++ '\t' :: q.2.data ++ ['\n']))
      rw [List.flatMap_cons]
      simp [List.append_assoc]
    rw [hser]
    rw [splitOnChar_append_sep _ ?hno]
    case hno =>
      intro c hc
      rcases List.mem_append.mp hc with hm | hm
      · exact (hk1 c hm).2
      · rcases List.mem_cons.mp hm with rfl | hm2
        · decide
        · exact (hk2 c hm2).2
    rw [ih (fun q hq => h q (List.mem_cons_of_mem kv hq))]
    rfl

lemma load_fold_pieces :
    ∀ (m acc : List (String × String)),
      (∀ kv ∈ m, entryOK kv = true) →
      (acc.map (fun kv => kv.1) ++ m.map (fun kv => kv.1)).Nodup →
      ((m.map (fun kv : String × String => kv.1.data ++ '\t' :: kv.2.data)) ++ [[]]).foldl
        (foldMappingLine true) acc = acc ++ m := by
  intro m
  induction m with
  | nil =>
    intro acc _ _
    show foldMappingLine true acc [] = acc ++ []
    rw [show foldMappingLine true acc [] = acc from rfl]
    simp
  | cons kv rest ih =>
    intro acc hok hnd
    obtain ⟨hk1, hk2, ⟨c0, cs, hc0, hc0w⟩, ⟨d0, hd0, hd0w⟩⟩ :=
      entryOK_parts (hok kv (List.mem_cons_self kv rest))
    have hk2ne : kv.2.data ≠ [] := by
      intro hc
      rw [hc] at hd0
      cases hd0
    have hstrip : pyStripL (kv.1.data ++ '\t' :: kv.2.data) =
        kv.1.data ++ '\t' :: kv.2.data := by
      apply pyStripL_id
      · intro c hc
        rw [hc0] at hc
        rw [show ((c0 :: cs ++ '\t' :: kv.2.data).head? : Option Char) = some c0 from rfl] at hc
        cases hc
        exact hc0w
      · intro c hc
        rw [List.getLast?_append] at hc
        have hgl : ('\t' :: kv.2.data).getLast? = kv.2.data.getLast? := by
          cases hx : kv.2.data with
          | nil => exact absurd hx hk2ne
          | cons y ys => rw [List.getLast?_cons_cons]
        rw [hgl, hd0] at hc
        rw [show (some d0).or kv.1.data.getLast? = some d0 from rfl] at hc
        cases hc
        exact hd0w
    have hstep : foldMappingLine true acc (kv.1.data ++ '\t' :: kv.2.data) =
        dictInsert kv.1 kv.2 acc := by
      show (match splitOnChar '\t' (pyStripL (kv.1.data ++ '\t' :: kv.2.data)) with
        | [k, v] => dictInsert (String.mk k) (String.mk v) acc
        | _ => acc) = dictInsert kv.1 kv.2 acc
      rw [hstrip, splitOnChar_append_sep _ (fun c hc => (hk1 c hc).1),
        splitOnChar_no_sep (fun c hc => (hk2 c hc).1)]
    rw [List.map_cons, List.cons_append, List.foldl_cons, hstep]
    have hsplit : (acc.map (fun q : String × String => q.1) ++
        (kv :: rest).map (fun q : String × String => q.1)) =
        acc.map (fun q : String × String => q.1) ++
          kv.1 :: rest.map (fun q : String × String => q.1) := by
      simp
    rw [hsplit] at hnd
    have hdisj := (List.nodup_append.mp hnd).2.2
    have hno : ∀ q ∈ acc, (q.1 == kv.1) = false := by
      intro q hq
      have hq1 : q.1 ≠ kv.1 := fun hcq =>
        hdisj (List.mem_map_of_mem (fun x => x.1) hq)
          (by rw [hcq]; exact List.mem_cons_self _ _)
      simp [hq1]
    rw [dictInsert_append hno]
    have := ih (acc ++ [kv]) (fun q hq => hok q (List.mem_cons_of_mem kv hq))
      (by simpa using hnd)
    rw [this]
    simp

lemma create_keys_nodup (data : String) :
    ((create_municipio_mapping data).map (fun kv => kv.1)).Nodup := by
  unfold create_municipio_mapping
  exact foldMapping_nodup false _ [] (by simp)

/-- C7: for a well-formed embedded dataset (keys and canonical names free
of tabs, newlines, leading/trailing whitespace — true of the dataset in
the source), reading back the sidecar file written on first-run
generation rebuilds the mapping exactly, so every token resolves
identically on both paths; a token absent from the mapping passes through
the enrichment unchanged. -/
theorem C7_sidecar_roundtrip (data : String)
    (hwf : ∀ kv ∈ create_municipio_mapping data, entryOK kv = true) :
    (load_municipio_mapping (serialize_mapping (create_municipio_mapping data)) =
      create_municipio_mapping data) ∧
    (∀ tok : String,
      dictGet (load_municipio_mapping (serialize_mapping (create_municipio_mapping data))) tok =
        dictGet (create_municipio_mapping data) tok) ∧
    (∀ (m : List (String × String)) (tok : String),
      dictGet m tok = none → municipio_cell m tok = tok) := by
  have hnd := create_keys_nodup data
  have hmain : load_municipio_mapping (serialize_mapping (create_municipio_mapping data)) =
      create_municipio_mapping data := by
    unfold load_municipio_mapping
    rw [serialize_split _ hwf]
    have := load_fold_pieces (create_municipio_mapping data) [] hwf (by simpa using hnd)
    simpa using this
  refine ⟨hmain, fun tok => by rw [hmain], fun m tok h => by simp [municipio_cell, h]⟩

/-- C7 witness: a two-line excerpt of the embedded dataset round-trips
through the sidecar file, and an absent token passes through. -/
theorem C7_sidecar_roundtrip_witness :
    (∀ kv ∈ create_municipio_mapping "000000-Ignorado\tIgnorado\n110001-Alta Floresta\tAlta Floresta", entryOK kv = true) ∧
    load_municipio_mapping (serialize_mapping
        (create_municipio_mapping "000000-Ignorado\tIgnorado\n110001-Alta Floresta\tAlta Floresta")) =
      create_municipio_mapping "000000-Ignorado\tIgnorado\n110001-Alta Floresta\tAlta Floresta" :=
  ⟨by decide,
    (C7_sidecar_roundtrip "000000-Ignorado\tIgnorado\n110001-Alta Floresta\tAlta Floresta"
      (by decide)).1⟩

end Codigo
